import Mathlib

/-!
Shallow embedding of `order_manager.py`, a restaurant order-management CLI.

The program keeps a pending list of orders (dicts with keys `order_id`,
`customer`, `items`), computes totals, adds orders interactively, and moves
orders from the pending store (`orders.json`) to the fulfilled store
(`output_orders.json`), both flat JSON files written with
`json.dump(..., indent=4, ensure_ascii=False)`.

Console interaction is modelled by a list of input lines consumed left to
right; an exhausted input list models Python's `input()` raising `EOFError`.
String primitives (`str.strip`, `str.upper`, `str.isdigit`, `int(...)`) are
modelled at ASCII scope (CPython additionally handles Unicode categories and
`_` digit separators, which no claim exercises).
-/

namespace OrderManager

/-- Whitespace characters removed by Python `str.strip()` (ASCII scope). -/
def isSpaceChar (c : Char) : Bool :=
  c = ' ' || c = '\t' || c = '\n' || c = '\r' || c = '\x0b' || c = '\x0c'

/-- Model of Python `str.strip()`: drop leading and trailing whitespace. -/
def pyStrip (s : String) : String :=
  String.mk (((s.data.dropWhile isSpaceChar).reverse.dropWhile isSpaceChar).reverse)

/-- Model of Python `str.upper()` on one character (ASCII scope). -/
def pyUpperChar (c : Char) : Char :=
  if 'a' ≤ c && c ≤ 'z' then Char.ofNat (c.toNat - 32) else c

/-- Model of Python `str.upper()` (ASCII scope). -/
def pyUpper (s : String) : String :=
  String.mk (s.data.map pyUpperChar)

/-- ASCII decimal digit test. -/
def isDigitChar (c : Char) : Bool :=
  '0' ≤ c && c ≤ '9'

/-- Numeric value of an ASCII digit character. -/
def digitVal (c : Char) : Nat :=
  c.toNat - 48

/-- One step of reading a decimal numeral most-significant digit first. -/
def digitStep (a : Nat) (c : Char) : Nat :=
  a * 10 + digitVal c

/-- Numeric value of a string of ASCII digits. -/
def digitsVal (l : List Char) : Nat :=
  l.foldl digitStep 0

/-- Model of Python `int(s)` on an already-stripped string: an optional sign
followed by one or more ASCII digits, `none` for `ValueError`. (CPython also
accepts Unicode digits and `_` separators; outside the modelled scope.) -/
def pyInt? (s : String) : Option Int :=
  match s.data with
  | [] => none
  | c :: cs =>
    if c = '+' then
      if !cs.isEmpty && cs.all isDigitChar then some (digitsVal cs) else none
    else if c = '-' then
      if !cs.isEmpty && cs.all isDigitChar then some (-(digitsVal cs : Int)) else none
    else if (c :: cs).all isDigitChar then some (digitsVal (c :: cs)) else none

/-- Model of Python `str.isdigit()` (ASCII scope): nonempty and all digits. -/
def pyIsDigit (s : String) : Bool :=
  !s.data.isEmpty && s.data.all isDigitChar

/-- One line-item dict `{"name": ..., "price": ..., "quantity": ...}` as built
by `add_order` (Python ints are unbounded, so prices and quantities are `Int`). -/
structure LineItem where
  name : String
  price : Int
  quantity : Int
deriving DecidableEq, Repr

/-- One order dict `{"order_id": ..., "customer": ..., "items": [...]}` as built
by `add_order` and stored in the pending and fulfilled stores. -/
structure Order where
  order_id : String
  customer : String
  items : List LineItem
deriving DecidableEq, Repr

/-- An order as the dynamically-typed dict `calculate_order_total` receives:
only the `"items"` key is consulted, and it may be absent (`itemsKey = none`
models a dict without the key). -/
structure OrderDoc where
  itemsKey : Option (List LineItem)
deriving DecidableEq

/-- Value of the Python expression `order.get("items", [])`. -/
def OrderDoc.getItems (o : OrderDoc) : List LineItem :=
  o.itemsKey.getD []

/-- Model of `calculate_order_total`: start from `total = 0` and fold
`total += item["price"] * item["quantity"]` over `order.get("items", [])`. -/
def calculate_order_total (order : OrderDoc) : Int :=
  order.getItems.foldl (fun total item => total + item.price * item.quantity) 0

/-- View a well-formed order as the dict passed to `calculate_order_total`. -/
def Order.toDoc (o : Order) : OrderDoc :=
  ⟨some o.items⟩

/-- Price entry loop of `add_order`: consume console lines until one parses as
a non-negative integer; parse failures and negative values are re-prompted.
`none` models the input stream running dry. -/
def readPrice : List String → Option (Int × List String)
  | [] => none
  | s :: rest =>
    match pyInt? (pyStrip s) with
    | none => readPrice rest
    | some p => if p < 0 then readPrice rest else some (p, rest)

/-- Quantity entry loop of `add_order`: like `readPrice` but re-prompting on
values `≤ 0`. -/
def readQty : List String → Option (Int × List String)
  | [] => none
  | s :: rest =>
    match pyInt? (pyStrip s) with
    | none => readQty rest
    | some q => if q ≤ 0 then readQty rest else some (q, rest)

/-- Item entry loop of `add_order`. A blank (stripped) name ends the loop once
at least one item has been entered and is re-prompted otherwise; a non-blank
name is followed by the price and quantity entry loops, after which the
assembled item is appended and the loop repeats. Every iteration consumes at
least one input line, so the loop is driven by a fuel bound on the number of
remaining lines; `itemLoopF_congr` shows any fuel of at least `inputs.length`
gives the same result, so the fuel never cuts the loop short. -/
def itemLoopF : Nat → List LineItem → List String → Option (List LineItem × List String)
  | 0, _, _ => none
  | fuel + 1, acc, inputs =>
    match inputs with
    | [] => none
    | s :: rest =>
      let item_name := pyStrip s
      if item_name = "" then
        if acc.isEmpty then itemLoopF fuel acc rest
        else some (acc, rest)
      else
        match readPrice rest with
        | none => none
        | some (price, r2) =>
          match readQty r2 with
          | none => none
          | some (qty, r3) => itemLoopF fuel (acc ++ [⟨item_name, price, qty⟩]) r3

/-- Item entry loop at its canonical fuel. -/
def itemLoop (acc : List LineItem) (inputs : List String) :
    Option (List LineItem × List String) :=
  itemLoopF inputs.length acc inputs

/-- Message returned by `add_order` when the entered id already exists. -/
def dupMsg (order_id : String) : String :=
  "錯誤：訂單編號 " ++ order_id ++ " 已存在！"

/-- Message returned by `add_order` after a successful add. -/
def addedMsg (order_id : String) : String :=
  "訂單 " ++ order_id ++ " 已新增！"

/-- Model of `add_order`: strip and uppercase the entered id; return the
duplicate message (pending list untouched) when some stored order's id equals
it; otherwise read the customer name, run the item entry loop, append the
assembled order and return the success message. `none` models the input
stream running dry. -/
def add_order (orders : List Order) (inputs : List String) :
    Option (String × List Order) :=
  match inputs with
  | [] => none
  | rawId :: rest =>
    let order_id := pyUpper (pyStrip rawId)
    if orders.any (fun o => o.order_id == order_id) then
      some (dupMsg order_id, orders)
    else
      match rest with
      | [] => none
      | rawCustomer :: rest2 =>
        let customer := pyStrip rawCustomer
        match itemLoop [] rest2 with
        | none => none
        | some (order_items, _) =>
          some (addedMsg order_id, orders ++ [⟨order_id, customer, order_items⟩])

/-- Characters remaining after Python `str.strip()` on a character list. -/
def stripChars (l : List Char) : List Char :=
  ((l.dropWhile isSpaceChar).reverse.dropWhile isSpaceChar).reverse

/-- Opening brace character (written by code point to keep braces out of
string literals). -/
def lbrace : Char := '\x7b'

/-- Closing brace character. -/
def rbrace : Char := '\x7d'

/-- ASCII digit character for a value below ten. -/
def digitChar (d : Nat) : Char :=
  Char.ofNat (48 + d)

/-- Lowercase hexadecimal digit character for a value below sixteen,
as produced by CPython's `json` encoder in `\uXXXX` escapes. -/
def hexDigitChar (v : Nat) : Char :=
  Char.ofNat (if v < 10 then 48 + v else 87 + v)

/-- Decimal digits of a natural number, most significant first, as printed by
Python's `repr`/`json.dump` for a non-negative int. The recursion is driven by
a fuel bound (any fuel above the value works, see `natPrintAux_congr`). -/
def natPrintAux : Nat → Nat → List Char
  | 0, _ => []
  | fuel + 1, n =>
    if n < 10 then [digitChar n]
    else natPrintAux fuel (n / 10) ++ [digitChar (n % 10)]

/-- Decimal digits of a natural number at canonical fuel. -/
def natPrint (n : Nat) : List Char :=
  natPrintAux (n + 1) n

/-- Decimal text of a Python int: a minus sign for negatives, then digits. -/
def intPrint (i : Int) : List Char :=
  if i < 0 then '-' :: natPrint (-i).toNat else natPrint i.toNat

/-- JSON escape of one character as produced by `json.dump` with
`ensure_ascii=False`: quote, backslash and the named control characters get
two-character escapes, the remaining code points below 32 get `\u00xx`, and
everything else (non-ASCII included) is emitted verbatim. -/
def escapeChar (c : Char) : List Char :=
  if c = '"' then ['\\', '"']
  else if c = '\\' then ['\\', '\\']
  else if c = '\x08' then ['\\', 'b']
  else if c = '\x0c' then ['\\', 'f']
  else if c = '\n' then ['\\', 'n']
  else if c = '\r' then ['\\', 'r']
  else if c = '\t' then ['\\', 't']
  else if c.toNat < 32 then
    ['\\', 'u', '0', '0', hexDigitChar (c.toNat / 16), hexDigitChar (c.toNat % 16)]
  else [c]

/-- JSON escape of a character list. -/
def escList : List Char → List Char
  | [] => []
  | c :: cs => escapeChar c ++ escList cs

/-- A JSON string literal: the escaped text between double quotes. -/
def quoteStr (s : String) : List Char :=
  '"' :: (escList s.data ++ ['"'])

/-- An indentation run of spaces. -/
def sp (n : Nat) : List Char :=
  List.replicate n ' '

/-- A JSON object key followed by the `": "` key separator. -/
def keyColon (k : String) : List Char :=
  quoteStr k ++ [':', ' ']

/-- Text of an item object up to and including its `"name"` key. -/
def itemPre : List Char :=
  sp 12 ++ [lbrace, '\n'] ++ sp 16 ++ keyColon "name"

/-- Text between an item's name value and its `"price"` value. -/
def itemMid1 : List Char :=
  [',', '\n'] ++ sp 16 ++ keyColon "price"

/-- Text between an item's price value and its `"quantity"` value. -/
def itemMid2 : List Char :=
  [',', '\n'] ++ sp 16 ++ keyColon "quantity"

/-- Closing text of an item object. -/
def itemSuf : List Char :=
  '\n' :: (sp 12 ++ [rbrace])

/-- Text of one item object exactly as `json.dump(..., indent=4,
ensure_ascii=False)` renders it at nesting depth three. -/
def dumpItem (it : LineItem) : List Char :=
  itemPre ++ (quoteStr it.name ++ (itemMid1 ++ (intPrint it.price ++
    (itemMid2 ++ (intPrint it.quantity ++ itemSuf)))))

/-- Closing text of the `"items"` array. -/
def itemsSuf : List Char :=
  '\n' :: (sp 8 ++ [']'])

/-- Text of the items after the first one: each is preceded by the `",\n"`
item separator, and the array's closing text follows the last. -/
def dumpItemsTail : List LineItem → List Char
  | [] => itemsSuf
  | it :: rest => ',' :: '\n' :: (dumpItem it ++ dumpItemsTail rest)

/-- Text of the `"items"` array: `[]` when empty (Python renders empty
containers inline regardless of `indent`), the indented element list
otherwise. -/
def dumpItems : List LineItem → List Char
  | [] => ['[', ']']
  | it :: rest => '[' :: '\n' :: (dumpItem it ++ dumpItemsTail rest)

/-- Text of an order object up to and including its `"order_id"` key. -/
def orderPre : List Char :=
  sp 4 ++ [lbrace, '\n'] ++ sp 8 ++ keyColon "order_id"

/-- Text between an order's id value and its `"customer"` value. -/
def orderMid1 : List Char :=
  [',', '\n'] ++ sp 8 ++ keyColon "customer"

/-- Text between an order's customer value and its `"items"` array. -/
def orderMid2 : List Char :=
  [',', '\n'] ++ sp 8 ++ keyColon "items"

/-- Closing text of an order object. -/
def orderSuf : List Char :=
  '\n' :: (sp 4 ++ [rbrace])

/-- Text of one order object exactly as `json.dump(..., indent=4,
ensure_ascii=False)` renders it at nesting depth one, keys in the insertion
order `add_order` uses. -/
def dumpOrder (o : Order) : List Char :=
  orderPre ++ (quoteStr o.order_id ++ (orderMid1 ++ (quoteStr o.customer ++
    (orderMid2 ++ (dumpItems o.items ++ orderSuf)))))

/-- Text of the orders after the first one, ending with the document's
closing `]`. -/
def dumpOrdersTail : List Order → List Char
  | [] => ['\n', ']']
  | o :: rest => ',' :: '\n' :: (dumpOrder o ++ dumpOrdersTail rest)

/-- Full text written by `save_orders` via `json.dump(orders, f, indent=4,
ensure_ascii=False)`: `[]` for an empty list, otherwise the indented
order list. -/
def dumpOrders : List Order → String
  | [] => String.mk ['[', ']']
  | o :: rest => String.mk ('[' :: '\n' :: (dumpOrder o ++ dumpOrdersTail rest))

/-- Hexadecimal digit test for `\uXXXX` escapes (JSON accepts both cases). -/
def isHexChar (c : Char) : Bool :=
  isDigitChar c || ('a' ≤ c && c ≤ 'f') || ('A' ≤ c && c ≤ 'F')

/-- Value of a hexadecimal digit character. -/
def hexVal (c : Char) : Nat :=
  if isDigitChar c then c.toNat - 48
  else if 'a' ≤ c && c ≤ 'f' then c.toNat - 87
  else c.toNat - 55

/-- Single-character JSON escapes accepted after a backslash. -/
def unescapeChar (e : Char) : Option Char :=
  if e = '"' then some '"'
  else if e = '\\' then some '\\'
  else if e = '/' then some '/'
  else if e = 'b' then some '\x08'
  else if e = 'f' then some '\x0c'
  else if e = 'n' then some '\n'
  else if e = 'r' then some '\r'
  else if e = 't' then some '\t'
  else none

/-- Body of a JSON string literal after the opening quote: collect characters
until the unescaped closing quote, decoding backslash escapes (including
`\uXXXX`); `none` on an unterminated or ill-formed literal. -/
def parseStrBody : List Char → Option (List Char × List Char)
  | [] => none
  | c :: cs =>
    if c = '"' then some ([], cs)
    else if c = '\\' then
      match cs with
      | [] => none
      | e :: cs2 =>
        if e = 'u' then
          match cs2 with
          | a :: b :: x :: d :: cs3 =>
            if isHexChar a && isHexChar b && isHexChar x && isHexChar d then
              match parseStrBody cs3 with
              | some (body, r) =>
                some (Char.ofNat (((hexVal a * 16 + hexVal b) * 16 + hexVal x) * 16 + hexVal d)
                  :: body, r)
              | none => none
            else none
          | _ => none
        else
          match unescapeChar e with
          | some u =>
            match parseStrBody cs2 with
            | some (body, r) => some (u :: body, r)
            | none => none
          | none => none
    else
      match parseStrBody cs with
      | some (body, r) => some (c :: body, r)
      | none => none

/-- A JSON string literal including its quotes. -/
def parseJString (cs : List Char) : Option (String × List Char) :=
  match cs with
  | '"' :: rest =>
    match parseStrBody rest with
    | some (body, r) => some (String.mk body, r)
    | none => none
  | _ => none

/-- Consume a maximal run of decimal digits onto an accumulator. -/
def readDigits : List Char → Nat → Nat × List Char
  | [], acc => (acc, [])
  | c :: cs, acc => if isDigitChar c then readDigits cs (digitStep acc c) else (acc, c :: cs)

/-- A nonempty run of decimal digits as a natural number. -/
def parseNat : List Char → Option (Nat × List Char)
  | [] => none
  | c :: cs => if isDigitChar c then some (readDigits cs (digitVal c)) else none

/-- A JSON integer: an optional minus sign then digits. -/
def parseIntTok (cs : List Char) : Option (Int × List Char) :=
  match cs with
  | [] => none
  | c :: rest =>
    if c = '-' then
      match parseNat rest with
      | some (n, r) => some (-(n : Int), r)
      | none => none
    else
      match parseNat (c :: rest) with
      | some (n, r) => some ((n : Int), r)
      | none => none

/-- Consume an exact expected character sequence. -/
def expectTok : List Char → List Char → Option (List Char)
  | [], cs => some cs
  | _ :: _, [] => none
  | p :: ps, c :: cs => if c = p then expectTok ps cs else none

/-- One item object of the canonical store format. -/
def parseItem (cs : List Char) : Option (LineItem × List Char) :=
  match expectTok itemPre cs with
  | none => none
  | some r1 =>
    match parseJString r1 with
    | none => none
    | some (name, r2) =>
      match expectTok itemMid1 r2 with
      | none => none
      | some r3 =>
        match parseIntTok r3 with
        | none => none
        | some (price, r4) =>
          match expectTok itemMid2 r4 with
          | none => none
          | some r5 =>
            match parseIntTok r5 with
            | none => none
            | some (qty, r6) =>
              match expectTok itemSuf r6 with
              | none => none
              | some r7 => some (⟨name, price, qty⟩, r7)

/-- Items after the first: at each step either the `",\n"` separator and a
further item, or the array's closing text. Each step consumes input, so the
loop is fueled by the remaining length. -/
def parseItemsTailF : Nat → List LineItem → List Char → Option (List LineItem × List Char)
  | 0, _, _ => none
  | fuel + 1, acc, cs =>
    match expectTok [',', '\n'] cs with
    | some r =>
      match parseItem r with
      | some (it, r2) => parseItemsTailF fuel (acc ++ [it]) r2
      | none => none
    | none =>
      match expectTok itemsSuf cs with
      | some r => some (acc, r)
      | none => none

/-- The `"items"` array of the canonical store format. -/
def parseItems (cs : List Char) : Option (List LineItem × List Char) :=
  match expectTok ['[', ']'] cs with
  | some r => some ([], r)
  | none =>
    match expectTok ['[', '\n'] cs with
    | none => none
    | some r =>
      match parseItem r with
      | none => none
      | some (it, r2) => parseItemsTailF r2.length [it] r2

/-- One order object of the canonical store format. -/
def parseOrder (cs : List Char) : Option (Order × List Char) :=
  match expectTok orderPre cs with
  | none => none
  | some r1 =>
    match parseJString r1 with
    | none => none
    | some (oid, r2) =>
      match expectTok orderMid1 r2 with
      | none => none
      | some r3 =>
        match parseJString r3 with
        | none => none
        | some (customer, r4) =>
          match expectTok orderMid2 r4 with
          | none => none
          | some r5 =>
            match parseItems r5 with
            | none => none
            | some (items, r6) =>
              match expectTok orderSuf r6 with
              | none => none
              | some r7 => some (⟨oid, customer, items⟩, r7)

/-- Orders after the first: at each step either the `",\n"` separator and a
further order, or the document's closing `"\n]"`. -/
def parseOrdersTailF : Nat → List Order → List Char → Option (List Order × List Char)
  | 0, _, _ => none
  | fuel + 1, acc, cs =>
    match expectTok [',', '\n'] cs with
    | some r =>
      match parseOrder r with
      | some (o, r2) => parseOrdersTailF fuel (acc ++ [o]) r2
      | none => none
    | none =>
      match expectTok ['\n', ']'] cs with
      | some r => some (acc, r)
      | none => none

/-- Model of `json.load` restricted to the canonical order-list documents the
program itself reads and writes: `[]`, or the `indent=4` rendering of a
nonempty order list, with nothing trailing. Any other text yields `none`,
which `load_data` treats as its caught-`JSONDecodeError` path (well-formed
JSON in a different layout or of a different shape is outside the modelled
scope; no claim exercises it). -/
def parseOrders (s : String) : Option (List Order) :=
  if s.data = ['[', ']'] then some []
  else
    match expectTok ['[', '\n'] s.data with
    | none => none
    | some r =>
      match parseOrder r with
      | none => none
      | some (o, r2) =>
        match parseOrdersTailF r2.length [o] r2 with
        | none => none
        | some (os, r3) => if r3 = [] then some os else none

/-- State of one store file as `open(filename, "r", encoding="utf-8")` plus
`json.load` can encounter it: absent (`FileNotFoundError`), present but not
readable (an `OSError` such as `PermissionError`), present with bytes that are
not valid UTF-8 (`UnicodeDecodeError` during decoding), or present as decoded
text. -/
inductive FileContent where
  | missing
  | unreadable
  | invalidUtf8
  | text (s : String)

/-- Python exceptions that escape `load_data` (its `except` clause catches
only `FileNotFoundError` and `json.decoder.JSONDecodeError`). -/
inductive PyErr where
  | ioError
  | unicodeDecodeError
deriving DecidableEq

/-- The file system restricted to the named stores. -/
def Stores : Type := String → FileContent

/-- Pending store file name. -/
def INPUT_FILE : String := "orders.json"

/-- Fulfilled store file name. -/
def OUTPUT_FILE : String := "output_orders.json"

/-- Model of `load_data`: missing file or text that fails to parse yields the
empty list (those exceptions are caught); an unreadable file or undecodable
bytes raise, since only `FileNotFoundError` and `JSONDecodeError` are caught. -/
def load_data (σ : Stores) (filename : String) : Except PyErr (List Order) :=
  match σ filename with
  | .missing => .ok []
  | .unreadable => .error .ioError
  | .invalidUtf8 => .error .unicodeDecodeError
  | .text s =>
    match parseOrders s with
    | some orders => .ok orders
    | none => .ok []

/-- Model of `save_orders`: overwrite the named store with the
`json.dump(orders, f, indent=4, ensure_ascii=False)` rendering. -/
def save_orders (σ : Stores) (filename : String) (orders : List Order) : Stores :=
  fun n => if n = filename then .text (dumpOrders orders) else σ n

/-- Message printed by `process_order` when the pending list is empty. -/
def noPendingMsg : String := "目前無待處理訂單"

/-- Message returned when the user cancels fulfillment with blank input. -/
def cancelMsg : String := "取消出餐處理"

/-- Message returned after an order is fulfilled. -/
def servedMsg (order_id : String) : String := "訂單 " ++ order_id ++ " 已出餐完成"

/-- Selection loop of `process_order`: blank (stripped) input cancels
(`some none`), non-digit input (`str.isdigit` false) or an out-of-range number
re-prompts, a valid 1-based index is returned (`some (some idx)`); `none`
models the input stream running dry. Since the loop runs `int(choice)` only
after `choice.isdigit()` holds, the conversion is `digitsVal`. -/
def selLoop (orders : List Order) : List String → Option (Option Nat)
  | [] => none
  | s :: rest =>
    let choice := pyStrip s
    if choice = "" then some none
    else if !pyIsDigit choice then selLoop orders rest
    else
      let idx := digitsVal choice.data
      if idx < 1 ∨ orders.length < idx then selLoop orders rest
      else some (some idx)

/-- Placeholder order for the (unreachable) out-of-range `getD`. -/
def defaultOrder : Order := ⟨"", "", []⟩

/-- Result of one `process_order` call: the returned message and order, the
pending list after the call, the stores after the call, and the logs of store
files read and written during the call. -/
structure ProcResult where
  msg : String
  order : Option Order
  pending : List Order
  stores : Stores
  readFiles : List String
  wroteFiles : List String

/-- Outcome of `process_order`: normal return, an uncaught exception from
`load_data` on the fulfilled store, or `EOFError` from exhausted input. -/
inductive ProcOut where
  | eof
  | err (e : PyErr)
  | out (r : ProcResult)

/-- Model of `process_order`: with an empty pending list report
`noPendingMsg` and do nothing else; otherwise run the selection loop, and on a
valid selection pop the chosen order, load the fulfilled store, append the
order and persist it. The pending list itself is returned mutated; persisting
the pending store is the caller's (`main`'s) job. -/
def process_order (σ : Stores) (orders : List Order) (inputs : List String) : ProcOut :=
  if orders = [] then .out ⟨noPendingMsg, none, orders, σ, [], []⟩
  else
    match selLoop orders inputs with
    | none => .eof
    | some none => .out ⟨cancelMsg, none, orders, σ, [], []⟩
    | some (some idx) =>
      let o := orders.getD (idx - 1) defaultOrder
      let pending := orders.eraseIdx (idx - 1)
      match load_data σ OUTPUT_FILE with
      | .error e => .err e
      | .ok output_orders =>
        .out ⟨servedMsg o.order_id, some o, pending,
          save_orders σ OUTPUT_FILE (output_orders ++ [o]),
          [OUTPUT_FILE], [OUTPUT_FILE]⟩

theorem readPrice_length {l : List String} {p : Int} {r : List String}
    (h : readPrice l = some (p, r)) : r.length < l.length := by
  induction l with
  | nil => simp [readPrice] at h
  | cons s rest ih =>
    simp only [readPrice] at h
    cases hp : pyInt? (pyStrip s) with
    | none =>
      rw [hp] at h
      have := ih h
      simpa using Nat.lt_succ_of_lt this
    | some v =>
      rw [hp] at h
      dsimp only at h
      by_cases hv : v < 0
      · rw [if_pos hv] at h
        have := ih h
        simpa using Nat.lt_succ_of_lt this
      · rw [if_neg hv] at h
        cases h
        simp

theorem readQty_length {l : List String} {q : Int} {r : List String}
    (h : readQty l = some (q, r)) : r.length < l.length := by
  induction l with
  | nil => simp [readQty] at h
  | cons s rest ih =>
    simp only [readQty] at h
    cases hq : pyInt? (pyStrip s) with
    | none =>
      rw [hq] at h
      have := ih h
      simpa using Nat.lt_succ_of_lt this
    | some v =>
      rw [hq] at h
      dsimp only at h
      by_cases hv : v ≤ 0
      · rw [if_pos hv] at h
        have := ih h
        simpa using Nat.lt_succ_of_lt this
      · rw [if_neg hv] at h
        cases h
        simp

theorem itemLoopF_congr :
    ∀ (fuel fuel' : Nat) (acc : List LineItem) (inputs : List String),
      inputs.length ≤ fuel → inputs.length ≤ fuel' →
      itemLoopF fuel acc inputs = itemLoopF fuel' acc inputs := by
  intro fuel
  induction fuel with
  | zero =>
    intro fuel' acc inputs h h'
    match inputs with
    | [] =>
      match fuel' with
      | 0 => rfl
      | f + 1 => rfl
    | s :: rest => simp at h
  | succ f ih =>
    intro fuel' acc inputs h h'
    match inputs with
    | [] =>
      match fuel' with
      | 0 => rfl
      | g + 1 => rfl
    | s :: rest =>
      match fuel' with
      | 0 => simp at h'
      | g + 1 =>
        simp only [List.length_cons, Nat.succ_le_succ_iff] at h h'
        show itemLoopF (f + 1) acc (s :: rest) = itemLoopF (g + 1) acc (s :: rest)
        simp only [itemLoopF]
        by_cases hb : pyStrip s = ""
        · rw [if_pos hb, if_pos hb]
          by_cases ha : acc.isEmpty
          · rw [if_pos ha, if_pos ha]
            exact ih g acc rest h h'
          · rw [if_neg ha, if_neg ha]
        · rw [if_neg hb, if_neg hb]
          cases hp : readPrice rest with
          | none => rfl
          | some pr =>
            obtain ⟨price, r2⟩ := pr
            dsimp only
            cases hq : readQty r2 with
            | none => rfl
            | some qr =>
              obtain ⟨qty, r3⟩ := qr
              dsimp only
              have l1 := readPrice_length hp
              have l2 := readQty_length hq
              exact ih g _ r3 (by omega) (by omega)

theorem readPrice_nonneg {l : List String} {p : Int} {r : List String}
    (h : readPrice l = some (p, r)) : 0 ≤ p := by
  induction l with
  | nil => simp [readPrice] at h
  | cons s rest ih =>
    simp only [readPrice] at h
    cases hp : pyInt? (pyStrip s) with
    | none => rw [hp] at h; exact ih h
    | some v =>
      rw [hp] at h
      dsimp only at h
      by_cases hv : v < 0
      · rw [if_pos hv] at h; exact ih h
      · rw [if_neg hv] at h; cases h; omega

theorem readQty_pos {l : List String} {q : Int} {r : List String}
    (h : readQty l = some (q, r)) : 0 < q := by
  induction l with
  | nil => simp [readQty] at h
  | cons s rest ih =>
    simp only [readQty] at h
    cases hq : pyInt? (pyStrip s) with
    | none => rw [hq] at h; exact ih h
    | some v =>
      rw [hq] at h
      dsimp only at h
      by_cases hv : v ≤ 0
      · rw [if_pos hv] at h; exact ih h
      · rw [if_neg hv] at h; cases h; omega

theorem head?_dropWhile {p : Char → Bool} {l : List Char} {c : Char}
    (h : (l.dropWhile p).head? = some c) : p c = false := by
  induction l with
  | nil => simp [List.dropWhile] at h
  | cons a t ih =>
    rw [List.dropWhile_cons] at h
    by_cases ha : p a
    · rw [if_pos ha] at h; exact ih h
    · rw [if_neg ha] at h
      simp only [List.head?_cons, Option.some.injEq] at h
      subst h
      exact Bool.eq_false_iff.mpr ha

theorem dropWhile_eq_self {p : Char → Bool} {l : List Char}
    (h : ∀ c, l.head? = some c → p c = false) : l.dropWhile p = l := by
  cases l with
  | nil => rfl
  | cons a t =>
    rw [List.dropWhile_cons, if_neg]
    simp [h a rfl]

theorem getLast?_dropWhile {p : Char → Bool} {l : List Char}
    (h : l.dropWhile p ≠ []) : (l.dropWhile p).getLast? = l.getLast? := by
  induction l with
  | nil => simp [List.dropWhile] at h
  | cons a t ih =>
    rw [List.dropWhile_cons] at h ⊢
    by_cases ha : p a
    · rw [if_pos ha] at h ⊢
      have ht : t ≠ [] := by
        intro he
        rw [he] at h
        exact h rfl
      rw [ih h]
      cases t with
      | nil => exact absurd rfl ht
      | cons b u => exact (List.getLast?_cons_cons ..).symm
    · rw [if_neg ha]

theorem pyStrip_eq_stripChars (s : String) : pyStrip s = String.mk (stripChars s.data) :=
  rfl

theorem head?_stripChars {l : List Char} {c : Char}
    (h : (stripChars l).head? = some c) : isSpaceChar c = false := by
  unfold stripChars at h
  rw [List.head?_reverse] at h
  have hne : (l.dropWhile isSpaceChar).reverse.dropWhile isSpaceChar ≠ [] := by
    intro he
    rw [he] at h
    simp at h
  rw [getLast?_dropWhile hne, List.getLast?_reverse] at h
  exact head?_dropWhile h

theorem stripChars_idem (l : List Char) : stripChars (stripChars l) = stripChars l := by
  have h1 : (stripChars l).dropWhile isSpaceChar = stripChars l :=
    dropWhile_eq_self fun _ hc => head?_stripChars hc
  show ((((stripChars l).dropWhile isSpaceChar).reverse).dropWhile isSpaceChar).reverse
      = stripChars l
  rw [h1]
  unfold stripChars
  rw [List.reverse_reverse]
  have h2 : ((l.dropWhile isSpaceChar).reverse.dropWhile isSpaceChar).dropWhile isSpaceChar
      = (l.dropWhile isSpaceChar).reverse.dropWhile isSpaceChar :=
    dropWhile_eq_self fun _ hc => head?_dropWhile hc
  rw [h2]

theorem pyStrip_idem (s : String) : pyStrip (pyStrip s) = pyStrip s := by
  rw [pyStrip_eq_stripChars, pyStrip_eq_stripChars]
  show String.mk (stripChars (stripChars s.data)) = _
  rw [stripChars_idem]

theorem char_le_iff {c d : Char} : c ≤ d ↔ c.toNat ≤ d.toNat :=
  Iff.rfl

theorem toNat_ofNat_ascii {n : Nat} (h : n < 128) : (Char.ofNat n).toNat = n := by
  have hv : n.isValidChar := Or.inl (by omega)
  simp [Char.ofNat, hv, Char.toNat, Char.ofNatAux, UInt32.toNat, UInt32.ofNatCore]

theorem isSpaceChar_eq_false {c : Char} (h : 32 < c.toNat) : isSpaceChar c = false := by
  apply Bool.eq_false_iff.mpr
  intro htrue
  simp only [isSpaceChar, Bool.or_eq_true, decide_eq_true_eq] at htrue
  rcases htrue with ((((h1 | h1) | h1) | h1) | h1) | h1 <;>
    (subst h1; exact absurd h (by decide))

theorem pyUpperChar_toNat_of_lower {c : Char} (h1 : 'a' ≤ c) (h2 : c ≤ 'z') :
    (pyUpperChar c).toNat = c.toNat - 32 := by
  have hn1 : 97 ≤ c.toNat := char_le_iff.mp h1
  rw [pyUpperChar, if_pos (by simp [h1, h2])]
  have hn2 : c.toNat ≤ 122 := char_le_iff.mp h2
  exact toNat_ofNat_ascii (by omega)

theorem pyUpperChar_of_not_lower {c : Char} (h : ¬('a' ≤ c ∧ c ≤ 'z')) :
    pyUpperChar c = c := by
  rw [pyUpperChar, if_neg]
  simpa using h

theorem isSpaceChar_pyUpperChar (c : Char) :
    isSpaceChar (pyUpperChar c) = isSpaceChar c := by
  by_cases h : 'a' ≤ c ∧ c ≤ 'z'
  · have hn1 : 97 ≤ c.toNat := char_le_iff.mp h.1
    have hup := pyUpperChar_toNat_of_lower h.1 h.2
    rw [isSpaceChar_eq_false (by omega), isSpaceChar_eq_false (by omega)]
  · rw [pyUpperChar_of_not_lower h]

theorem pyUpperChar_idem (c : Char) : pyUpperChar (pyUpperChar c) = pyUpperChar c := by
  by_cases h : 'a' ≤ c ∧ c ≤ 'z'
  · have hn1 : 97 ≤ c.toNat := char_le_iff.mp h.1
    have hn2 : c.toNat ≤ 122 := char_le_iff.mp h.2
    have hup := pyUpperChar_toNat_of_lower h.1 h.2
    apply pyUpperChar_of_not_lower
    intro hcon
    have hcon' : 97 ≤ (pyUpperChar c).toNat := char_le_iff.mp hcon.1
    omega
  · rw [pyUpperChar_of_not_lower h]
    exact pyUpperChar_of_not_lower h

theorem pyUpper_idem (s : String) : pyUpper (pyUpper s) = pyUpper s := by
  show String.mk ((s.data.map pyUpperChar).map pyUpperChar) = String.mk (s.data.map pyUpperChar)
  rw [List.map_map]
  exact congrArg String.mk (List.map_congr_left fun c _ => pyUpperChar_idem c)

theorem stripChars_map_pyUpperChar (l : List Char) :
    stripChars (l.map pyUpperChar) = (stripChars l).map pyUpperChar := by
  have hp : (isSpaceChar ∘ pyUpperChar) = isSpaceChar :=
    funext fun c => isSpaceChar_pyUpperChar c
  unfold stripChars
  rw [List.dropWhile_map, hp, ← List.map_reverse, List.dropWhile_map, hp, List.map_reverse]

theorem pyStrip_pyUpper_pyStrip (s : String) :
    pyStrip (pyUpper (pyStrip s)) = pyUpper (pyStrip s) := by
  show String.mk (stripChars ((stripChars s.data).map pyUpperChar))
      = String.mk ((stripChars s.data).map pyUpperChar)
  rw [stripChars_map_pyUpperChar, stripChars_idem]

theorem itemLoopF_sound :
    ∀ (fuel : Nat) (acc : List LineItem) (inputs : List String) (items : List LineItem)
      (rest : List String),
      itemLoopF fuel acc inputs = some (items, rest) →
      (∀ it ∈ acc, pyStrip it.name = it.name ∧ 0 ≤ it.price ∧ 0 < it.quantity) →
      items ≠ [] ∧ ∀ it ∈ items, pyStrip it.name = it.name ∧ 0 ≤ it.price ∧ 0 < it.quantity := by
  intro fuel
  induction fuel with
  | zero => intro acc inputs items rest h hacc; simp [itemLoopF] at h
  | succ f ih =>
    intro acc inputs items rest h hacc
    match inputs with
    | [] => simp [itemLoopF] at h
    | s :: rest0 =>
      simp only [itemLoopF] at h
      by_cases hb : pyStrip s = ""
      · rw [if_pos hb] at h
        by_cases ha : acc.isEmpty
        · rw [if_pos ha] at h
          exact ih acc rest0 items rest h hacc
        · rw [if_neg ha] at h
          cases h
          refine ⟨?_, hacc⟩
          intro he
          rw [he] at ha
          exact ha rfl
      · rw [if_neg hb] at h
        cases hp : readPrice rest0 with
        | none => rw [hp] at h; cases h
        | some pr =>
          obtain ⟨price, r2⟩ := pr
          rw [hp] at h
          dsimp only at h
          cases hq : readQty r2 with
          | none => rw [hq] at h; cases h
          | some qr =>
            obtain ⟨qty, r3⟩ := qr
            rw [hq] at h
            dsimp only at h
            refine ih _ r3 items rest h ?_
            intro it hit
            rcases List.mem_append.mp hit with hmem | hmem
            · exact hacc it hmem
            · rcases List.mem_singleton.mp hmem with rfl
              exact ⟨pyStrip_idem s, readPrice_nonneg hp, readQty_pos hq⟩

theorem add_order_cases {orders : List Order} {inputs : List String} {msg : String}
    {orders' : List Order} (h : add_order orders inputs = some (msg, orders')) :
    orders' = orders ∨
    ∃ rawId rawCustomer rest2 order_items rest3,
      inputs = rawId :: rawCustomer :: rest2 ∧
      itemLoop [] rest2 = some (order_items, rest3) ∧
      orders' = orders ++ [⟨pyUpper (pyStrip rawId), pyStrip rawCustomer, order_items⟩] := by
  match inputs with
  | [] => simp [add_order] at h
  | rawId :: rest =>
    simp only [add_order] at h
    by_cases hd : orders.any (fun o => o.order_id == pyUpper (pyStrip rawId))
    · rw [if_pos hd] at h
      cases h
      exact Or.inl rfl
    · rw [if_neg hd] at h
      match rest with
      | [] => cases h
      | rawCustomer :: rest2 =>
        dsimp only at h
        cases hil : itemLoop [] rest2 with
        | none => rw [hil] at h; cases h
        | some p =>
          obtain ⟨order_items, rest3⟩ := p
          rw [hil] at h
          dsimp only at h
          cases h
          exact Or.inr ⟨rawId, rawCustomer, rest2, order_items, rest3, rfl, hil, rfl⟩

theorem foldl_total (l : List LineItem) (t : Int) :
    l.foldl (fun total item => total + item.price * item.quantity) t
      = t + (l.map fun item => item.price * item.quantity).sum := by
  induction l generalizing t with
  | nil => simp
  | cons a l ih => simp [ih]; ring

/-- C2: for every order, `calculate_order_total` returns the sum over its
items of price times quantity, and an order with an empty item list yields 0.
The Lean model is a pure function, matching the side-effect-free Python body. -/
theorem C2_total_is_sum (o : Order) (oid customer : String) :
    calculate_order_total o.toDoc
        = (o.items.map fun item => item.price * item.quantity).sum ∧
    calculate_order_total (Order.toDoc ⟨oid, customer, []⟩) = 0 := by
  constructor
  · show o.items.foldl _ 0 = _
    rw [foldl_total]
    omega
  · rfl

/-- C9: on an order dict that lacks the `"items"` key entirely,
`calculate_order_total` returns 0 rather than raising, because
`order.get("items", [])` defaults to the empty list. -/
theorem C9_missing_items_total_zero : calculate_order_total ⟨none⟩ = 0 :=
  rfl

/-- C1 as stated is false on the code: with pending id `"a1"` stored
lowercase, the entered id `"A1"` matches it case-insensitively, yet
`add_order` appends a second order instead of rejecting, because the
uppercased entered id is compared for exact equality with the stored ids. -/
theorem C1_counterexample :
    pyUpper (pyStrip "a1") = pyUpper (pyStrip "A1") ∧
    add_order [⟨"a1", "Ann", [⟨"Tea", 1, 1⟩]⟩] ["A1", "Bob", "Tea", "30", "2", ""]
      = some (addedMsg "A1",
          [⟨"a1", "Ann", [⟨"Tea", 1, 1⟩]⟩, ⟨"A1", "Bob", [⟨"Tea", 30, 2⟩]⟩]) := by
  constructor
  · rfl
  · decide

/-- C1 (amended): `add_order` normalizes the entered id by stripping
whitespace and uppercasing, and rejects — returning the duplicate-id message
and the pending list unchanged — exactly when some stored order's id is
literally equal to the normalized entered id. Since every id the program
itself stores is uppercase, this realizes the case-insensitive check for
program-created data; a stored id matching only case-insensitively (for
example lowercase `"a1"` against entered `"A1"`) is not detected. -/
theorem C1_duplicate_id_rejected (orders : List Order) (rawId : String)
    (rest : List String)
    (h : ∃ o ∈ orders, o.order_id = pyUpper (pyStrip rawId)) :
    add_order orders (rawId :: rest)
      = some (dupMsg (pyUpper (pyStrip rawId)), orders) := by
  obtain ⟨o, ho, he⟩ := h
  have hany : orders.any (fun o => o.order_id == pyUpper (pyStrip rawId)) = true :=
    List.any_eq_true.mpr ⟨o, ho, by simp [he]⟩
  simp only [add_order]
  rw [if_pos hany]

theorem C1_duplicate_id_rejected_witness :
    add_order [⟨"A1", "Alice", [⟨"Tea", 30, 2⟩]⟩] ["a1"]
      = some (dupMsg "A1", [⟨"A1", "Alice", [⟨"Tea", 30, 2⟩]⟩]) :=
  C1_duplicate_id_rejected [⟨"A1", "Alice", [⟨"Tea", 30, 2⟩]⟩] "a1" []
    ⟨⟨"A1", "Alice", [⟨"Tea", 30, 2⟩]⟩, by decide⟩

/-- C5: a successful run of `add_order` appends an order with at least one
item whose every item has non-negative price and positive quantity; the entry
loops consume (re-prompt) non-integer input, negative prices and non-positive
quantities, and a blank item name is re-prompted while no item has been
accepted and ends entry once one has. -/
theorem C5_entry_validation :
    (∀ orders inputs msg orders',
       add_order orders inputs = some (msg, orders') →
       orders' = orders ∨ ∃ o, orders' = orders ++ [o] ∧ o.items ≠ [] ∧
         ∀ it ∈ o.items, 0 ≤ it.price ∧ 0 < it.quantity) ∧
    (∀ s r, pyInt? (pyStrip s) = none → readPrice (s :: r) = readPrice r) ∧
    (∀ s r p, pyInt? (pyStrip s) = some p → p < 0 → readPrice (s :: r) = readPrice r) ∧
    (∀ s r, pyInt? (pyStrip s) = none → readQty (s :: r) = readQty r) ∧
    (∀ s r q, pyInt? (pyStrip s) = some q → q ≤ 0 → readQty (s :: r) = readQty r) ∧
    (∀ s r, pyStrip s = "" → itemLoop [] (s :: r) = itemLoop [] r) ∧
    (∀ acc s r, pyStrip s = "" → acc ≠ [] → itemLoop acc (s :: r) = some (acc, r)) := by
  refine ⟨?_, ?_, ?_, ?_, ?_, ?_, ?_⟩
  · intro orders inputs msg orders' h
    rcases add_order_cases h with hsame | ⟨rawId, rawCustomer, rest2, order_items, rest3, _, hil, ho⟩
    · exact Or.inl hsame
    · refine Or.inr ⟨_, ho, ?_⟩
      have := itemLoopF_sound rest2.length [] rest2 order_items rest3 hil (by simp)
      exact ⟨this.1, fun it hit => ⟨(this.2 it hit).2.1, (this.2 it hit).2.2⟩⟩
  · intro s r hp
    simp only [readPrice, hp]
  · intro s r p hp hneg
    simp only [readPrice, hp]
    rw [if_pos hneg]
  · intro s r hq
    simp only [readQty, hq]
  · intro s r q hq hneg
    simp only [readQty, hq]
    rw [if_pos hneg]
  · intro s r hb
    show itemLoopF (r.length + 1) [] (s :: r) = itemLoopF r.length [] r
    simp only [itemLoopF]
    rw [if_pos hb, if_pos (by rfl)]
  · intro acc s r hb hne
    show itemLoopF (r.length + 1) acc (s :: r) = some (acc, r)
    simp only [itemLoopF]
    rw [if_pos hb, if_neg (by simpa [List.isEmpty_iff] using hne)]

theorem C5_entry_validation_witness :
    ([⟨"B2", "Bob", [⟨"Tea", 30, 2⟩]⟩] : List Order) = [] ∨
    ∃ o, ([⟨"B2", "Bob", [⟨"Tea", 30, 2⟩]⟩] : List Order) = [] ++ [o] ∧ o.items ≠ [] ∧
      ∀ it ∈ o.items, 0 ≤ it.price ∧ 0 < it.quantity :=
  C5_entry_validation.1 [] ["B2", "Bob", "", "Tea", "x", "-1", "30", "0", "2", ""]
    (addedMsg "B2") [⟨"B2", "Bob", [⟨"Tea", 30, 2⟩]⟩] (by decide)

/-- C10: every order appended by `add_order` has a whitespace-trimmed,
uppercased order id and whitespace-trimmed customer and item names, because
the entered id is stripped and uppercased and the customer and item names are
stripped before storage. -/
theorem C10_fields_trimmed :
    ∀ orders inputs msg orders',
      add_order orders inputs = some (msg, orders') →
      orders' = orders ∨ ∃ o, orders' = orders ++ [o] ∧
        pyStrip o.order_id = o.order_id ∧ pyUpper o.order_id = o.order_id ∧
        pyStrip o.customer = o.customer ∧ ∀ it ∈ o.items, pyStrip it.name = it.name := by
  intro orders inputs msg orders' h
  rcases add_order_cases h with hsame | ⟨rawId, rawCustomer, rest2, order_items, rest3, _, hil, ho⟩
  · exact Or.inl hsame
  · refine Or.inr ⟨_, ho, pyStrip_pyUpper_pyStrip rawId, pyUpper_idem (pyStrip rawId),
      pyStrip_idem rawCustomer, ?_⟩
    intro it hit
    exact ((itemLoopF_sound rest2.length [] rest2 order_items rest3 hil (by simp)).2 it hit).1

theorem C10_fields_trimmed_witness :
    ([⟨"B2", "Bob", [⟨"Tea", 30, 2⟩]⟩] : List Order) = [] ∨
    ∃ o, ([⟨"B2", "Bob", [⟨"Tea", 30, 2⟩]⟩] : List Order) = [] ++ [o] ∧
      pyStrip o.order_id = o.order_id ∧ pyUpper o.order_id = o.order_id ∧
      pyStrip o.customer = o.customer ∧ ∀ it ∈ o.items, pyStrip it.name = it.name :=
  C10_fields_trimmed [] ["  b2 ", " Bob ", " Tea ", "30", "2", ""]
    (addedMsg "B2") [⟨"B2", "Bob", [⟨"Tea", 30, 2⟩]⟩] (by decide)

theorem expectTok_append (p r : List Char) : expectTok p (p ++ r) = some r := by
  induction p with
  | nil => rfl
  | cons a ps ih => simp [expectTok, ih]

theorem isDigitChar_iff {c : Char} : isDigitChar c = true ↔ 48 ≤ c.toNat ∧ c.toNat ≤ 57 := by
  simp only [isDigitChar, Bool.and_eq_true, decide_eq_true_eq]
  exact and_congr char_le_iff char_le_iff

theorem digitChar_toNat {d : Nat} (h : d < 10) : (digitChar d).toNat = 48 + d :=
  toNat_ofNat_ascii (by omega)

theorem isDigitChar_digitChar {d : Nat} (h : d < 10) : isDigitChar (digitChar d) = true := by
  rw [isDigitChar_iff, digitChar_toNat h]
  omega

theorem digitVal_digitChar {d : Nat} (h : d < 10) : digitVal (digitChar d) = d := by
  rw [digitVal, digitChar_toNat h]
  omega

theorem ne_dash_of_isDigitChar {c : Char} (h : isDigitChar c = true) : c ≠ '-' := by
  intro he
  subst he
  exact absurd h (by decide)

theorem natPrintAux_congr :
    ∀ (fuel fuel' n : Nat), n < fuel → n < fuel' → natPrintAux fuel n = natPrintAux fuel' n := by
  intro fuel
  induction fuel with
  | zero => intro fuel' n h h'; omega
  | succ f ih =>
    intro fuel' n h h'
    match fuel' with
    | 0 => omega
    | g + 1 =>
      simp only [natPrintAux]
      by_cases h10 : n < 10
      · rw [if_pos h10, if_pos h10]
      · rw [if_neg h10, if_neg h10, ih g (n / 10) (by omega) (by omega)]

theorem natPrint_unfold (n : Nat) :
    natPrint n = if n < 10 then [digitChar n]
      else natPrint (n / 10) ++ [digitChar (n % 10)] := by
  show natPrintAux (n + 1) n = _
  simp only [natPrintAux]
  by_cases h10 : n < 10
  · rw [if_pos h10, if_pos h10]
  · rw [if_neg h10, if_neg h10]
    have : natPrintAux n (n / 10) = natPrintAux (n / 10 + 1) (n / 10) :=
      natPrintAux_congr n (n / 10 + 1) (n / 10) (by omega) (by omega)
    rw [this]
    rfl

theorem natPrint_digits :
    ∀ n : Nat, ∀ c ∈ natPrint n, isDigitChar c = true := by
  intro n
  induction n using Nat.strong_induction_on with
  | _ n ih =>
    intro c hc
    rw [natPrint_unfold] at hc
    by_cases h10 : n < 10
    · rw [if_pos h10] at hc
      rcases List.mem_singleton.mp hc with rfl
      exact isDigitChar_digitChar h10
    · rw [if_neg h10] at hc
      rcases List.mem_append.mp hc with hm | hm
      · exact ih (n / 10) (by omega) c hm
      · rcases List.mem_singleton.mp hm with rfl
        exact isDigitChar_digitChar (by omega)

theorem natPrint_ne_nil (n : Nat) : natPrint n ≠ [] := by
  rw [natPrint_unfold]
  by_cases h10 : n < 10
  · rw [if_pos h10]; simp
  · rw [if_neg h10]; simp

theorem readDigits_append {l : List Char} (hl : ∀ c ∈ l, isDigitChar c = true)
    (acc : Nat) {c0 : Char} (hc0 : isDigitChar c0 = false) (rest : List Char) :
    readDigits (l ++ c0 :: rest) acc = (l.foldl digitStep acc, c0 :: rest) := by
  induction l generalizing acc with
  | nil =>
    simp only [List.nil_append, readDigits, List.foldl_nil]
    rw [if_neg (by rw [hc0]; exact Bool.false_ne_true)]
  | cons c cs ih =>
    simp only [List.cons_append, readDigits, List.foldl_cons, List.append_eq]
    rw [if_pos (hl c (List.mem_cons_self c cs))]
    exact ih (fun d hd => hl d (List.mem_cons_of_mem c hd)) (digitStep acc c)

theorem foldl_digitStep_natPrint :
    ∀ (n acc : Nat), (natPrint n).foldl digitStep acc = acc * 10 ^ (natPrint n).length + n := by
  intro n
  induction n using Nat.strong_induction_on with
  | _ n ih =>
    intro acc
    rw [natPrint_unfold]
    by_cases h10 : n < 10
    · rw [if_pos h10]
      simp only [List.foldl_cons, List.foldl_nil, List.length_singleton, pow_one, digitStep]
      rw [digitVal_digitChar h10]
    · rw [if_neg h10]
      rw [List.foldl_append, ih (n / 10) (by omega) acc]
      simp only [List.foldl_cons, List.foldl_nil, digitStep, List.length_append,
        List.length_singleton]
      rw [digitVal_digitChar (by omega : n % 10 < 10), pow_succ]
      have hexp : (acc * 10 ^ (natPrint (n / 10)).length + n / 10) * 10 + n % 10
          = acc * (10 ^ (natPrint (n / 10)).length * 10) + (n / 10 * 10 + n % 10) := by ring
      rw [hexp]
      congr 1
      omega

theorem parseNat_natPrint (n : Nat) {c0 : Char} (hc0 : isDigitChar c0 = false)
    (rest : List Char) :
    parseNat (natPrint n ++ c0 :: rest) = some (n, c0 :: rest) := by
  cases hshape : natPrint n with
  | nil => exact absurd hshape (natPrint_ne_nil n)
  | cons c cs =>
    have hdigits : ∀ d ∈ c :: cs, isDigitChar d = true := by
      rw [← hshape]; exact natPrint_digits n
    simp only [List.cons_append, parseNat]
    rw [if_pos (hdigits c (List.mem_cons_self c cs))]
    rw [readDigits_append (fun d hd => hdigits d (List.mem_cons_of_mem c hd)) _ hc0]
    have hval : cs.foldl digitStep (digitVal c) = n := by
      have h1 : cs.foldl digitStep (digitVal c) = (c :: cs).foldl digitStep 0 := by
        rw [List.foldl_cons]
        congr 1
        simp [digitStep]
      rw [h1, ← hshape, foldl_digitStep_natPrint]
      simp
    rw [hval]

theorem parseIntTok_intPrint (i : Int) {c0 : Char} (hc0 : isDigitChar c0 = false)
    (rest : List Char) :
    parseIntTok (intPrint i ++ c0 :: rest) = some (i, c0 :: rest) := by
  rw [intPrint]
  by_cases hneg : i < 0
  · rw [if_pos hneg]
    show parseIntTok ('-' :: (natPrint (-i).toNat ++ c0 :: rest)) = _
    simp only [parseIntTok]
    rw [if_pos trivial, parseNat_natPrint _ hc0]
    dsimp only
    have hcast : -(((-i).toNat : Nat) : Int) = i := by omega
    rw [hcast]
  · rw [if_neg hneg]
    cases hshape : natPrint i.toNat with
    | nil => exact absurd hshape (natPrint_ne_nil _)
    | cons c cs =>
      have hdig : isDigitChar c = true := by
        apply natPrint_digits i.toNat
        rw [hshape]
        exact List.mem_cons_self c cs
      simp only [List.cons_append, parseIntTok]
      rw [if_neg (ne_dash_of_isDigitChar hdig), ← List.cons_append, ← hshape,
        parseNat_natPrint _ hc0]
      dsimp only
      have hcast : ((i.toNat : Nat) : Int) = i := by omega
      rw [hcast]

theorem hexDigitChar_toNat_lt {v : Nat} (h : v < 10) : (hexDigitChar v).toNat = 48 + v := by
  rw [hexDigitChar, if_pos h]
  exact toNat_ofNat_ascii (by omega)

theorem hexDigitChar_toNat_ge {v : Nat} (h10 : ¬v < 10) (h : v < 16) :
    (hexDigitChar v).toNat = 87 + v := by
  rw [hexDigitChar, if_neg h10]
  exact toNat_ofNat_ascii (by omega)

theorem lower_hex_iff {c : Char} : ('a' ≤ c && c ≤ 'f') = true ↔ 97 ≤ c.toNat ∧ c.toNat ≤ 102 := by
  simp only [Bool.and_eq_true, decide_eq_true_eq]
  exact and_congr char_le_iff char_le_iff

theorem isHexChar_hexDigitChar {v : Nat} (h : v < 16) : isHexChar (hexDigitChar v) = true := by
  rw [isHexChar]
  by_cases h10 : v < 10
  · rw [isDigitChar_iff.mpr (by rw [hexDigitChar_toNat_lt h10]; omega)]
    rfl
  · rw [lower_hex_iff.mpr (by rw [hexDigitChar_toNat_ge h10 h]; omega)]
    simp

theorem hexVal_hexDigitChar {v : Nat} (h : v < 16) : hexVal (hexDigitChar v) = v := by
  rw [hexVal]
  by_cases h10 : v < 10
  · rw [if_pos (isDigitChar_iff.mpr (by rw [hexDigitChar_toNat_lt h10]; omega)),
      hexDigitChar_toNat_lt h10]
    omega
  · have hd : ¬isDigitChar (hexDigitChar v) = true := by
      rw [isDigitChar_iff, hexDigitChar_toNat_ge h10 h]
      omega
    rw [if_neg hd, if_pos (lower_hex_iff.mpr (by rw [hexDigitChar_toNat_ge h10 h]; omega)),
      hexDigitChar_toNat_ge h10 h]
    omega

theorem parseStrBody_quote (cs : List Char) : parseStrBody ('"' :: cs) = some ([], cs) := by
  rw [parseStrBody.eq_def]
  dsimp only
  rw [if_pos rfl]

theorem parseStrBody_esc {e : Char} (he : ¬e = 'u') {u : Char} (hu : unescapeChar e = some u)
    (cs : List Char) :
    parseStrBody ('\\' :: e :: cs) = match parseStrBody cs with
      | some (body, r) => some (u :: body, r)
      | none => none := by
  rw [parseStrBody.eq_def]
  dsimp only
  rw [if_neg (by decide), if_pos rfl, if_neg he, hu]

theorem parseStrBody_u {h1 h2 h3 h4 : Char}
    (hh : (isHexChar h1 && isHexChar h2 && isHexChar h3 && isHexChar h4) = true)
    (cs : List Char) :
    parseStrBody ('\\' :: 'u' :: h1 :: h2 :: h3 :: h4 :: cs) = match parseStrBody cs with
      | some (body, r) =>
        some (Char.ofNat (((hexVal h1 * 16 + hexVal h2) * 16 + hexVal h3) * 16 + hexVal h4)
          :: body, r)
      | none => none := by
  rw [parseStrBody.eq_def]
  dsimp only
  rw [if_neg (by decide), if_pos rfl, if_pos rfl, if_pos hh]

theorem parseStrBody_other {c : Char} (h1 : ¬c = '"') (h2 : ¬c = '\\') (cs : List Char) :
    parseStrBody (c :: cs) = match parseStrBody cs with
      | some (body, r) => some (c :: body, r)
      | none => none := by
  rw [parseStrBody.eq_def]
  dsimp only
  rw [if_neg h1, if_neg h2]

theorem parseStrBody_escList :
    ∀ (cs rest : List Char), parseStrBody (escList cs ++ '"' :: rest) = some (cs, rest) := by
  intro cs
  induction cs with
  | nil =>
    intro rest
    show parseStrBody ('"' :: rest) = some ([], rest)
    exact parseStrBody_quote rest
  | cons c cs ih =>
    intro rest
    show parseStrBody ((escapeChar c ++ escList cs) ++ '"' :: rest) = some (c :: cs, rest)
    rw [List.append_assoc, escapeChar]
    by_cases h1 : c = '"'
    · subst h1
      rw [if_pos rfl]
      show parseStrBody ('\\' :: '"' :: (escList cs ++ '"' :: rest)) = _
      rw [parseStrBody_esc (by decide) (show unescapeChar '"' = some '"' from by decide), ih]
    · rw [if_neg h1]
      by_cases h2 : c = '\\'
      · subst h2
        rw [if_pos rfl]
        show parseStrBody ('\\' :: '\\' :: (escList cs ++ '"' :: rest)) = _
        rw [parseStrBody_esc (by decide) (show unescapeChar '\\' = some '\\' from by decide), ih]
      · rw [if_neg h2]
        by_cases h3 : c = '\x08'
        · subst h3
          rw [if_pos rfl]
          show parseStrBody ('\\' :: 'b' :: (escList cs ++ '"' :: rest)) = _
          rw [parseStrBody_esc (by decide) (show unescapeChar 'b' = some '\x08' from by decide), ih]
        · rw [if_neg h3]
          by_cases h4 : c = '\x0c'
          · subst h4
            rw [if_pos rfl]
            show parseStrBody ('\\' :: 'f' :: (escList cs ++ '"' :: rest)) = _
            rw [parseStrBody_esc (by decide) (show unescapeChar 'f' = some '\x0c' from by decide), ih]
          · rw [if_neg h4]
            by_cases h5 : c = '\n'
            · subst h5
              rw [if_pos rfl]
              show parseStrBody ('\\' :: 'n' :: (escList cs ++ '"' :: rest)) = _
              rw [parseStrBody_esc (by decide) (show unescapeChar 'n' = some '\n' from by decide), ih]
            · rw [if_neg h5]
              by_cases h6 : c = '\r'
              · subst h6
                rw [if_pos rfl]
                show parseStrBody ('\\' :: 'r' :: (escList cs ++ '"' :: rest)) = _
                rw [parseStrBody_esc (by decide) (show unescapeChar 'r' = some '\r' from by decide), ih]
              · rw [if_neg h6]
                by_cases h7 : c = '\t'
                · subst h7
                  rw [if_pos rfl]
                  show parseStrBody ('\\' :: 't' :: (escList cs ++ '"' :: rest)) = _
                  rw [parseStrBody_esc (by decide) (show unescapeChar 't' = some '\t' from by decide), ih]
                · rw [if_neg h7]
                  by_cases h8 : c.toNat < 32
                  · rw [if_pos h8]
                    show parseStrBody ('\\' :: 'u' :: '0' :: '0' ::
                        hexDigitChar (c.toNat / 16) :: hexDigitChar (c.toNat % 16) ::
                        (escList cs ++ '"' :: rest)) = _
                    have hhex : (isHexChar '0' && isHexChar '0' &&
                        isHexChar (hexDigitChar (c.toNat / 16)) &&
                        isHexChar (hexDigitChar (c.toNat % 16))) = true := by
                      rw [isHexChar_hexDigitChar (by omega), isHexChar_hexDigitChar (by omega)]
                      rfl
                    rw [parseStrBody_u hhex, ih]
                    have h0 : hexVal '0' = 0 := by decide
                    have hval : ((hexVal '0' * 16 + hexVal '0') * 16 +
                        hexVal (hexDigitChar (c.toNat / 16))) * 16 +
                        hexVal (hexDigitChar (c.toNat % 16)) = c.toNat := by
                      rw [h0, hexVal_hexDigitChar (by omega), hexVal_hexDigitChar (by omega)]
                      omega
                    rw [hval, Char.ofNat_toNat]
                  · rw [if_neg h8]
                    show parseStrBody (c :: (escList cs ++ '"' :: rest)) = _
                    rw [parseStrBody_other h1 h2, ih]

theorem parseJString_quoteStr (s : String) (rest : List Char) :
    parseJString (quoteStr s ++ rest) = some (s, rest) := by
  show parseJString (('"' :: (escList s.data ++ ['"'])) ++ rest) = _
  rw [List.cons_append, List.append_assoc, List.singleton_append]
  simp only [parseJString]
  rw [parseStrBody_escList]

theorem parseItem_dumpItem (it : LineItem) (rest : List Char) :
    parseItem (dumpItem it ++ rest) = some (it, rest) := by
  have htext : dumpItem it ++ rest
      = itemPre ++ (quoteStr it.name ++ (itemMid1 ++ (intPrint it.price ++
          (itemMid2 ++ (intPrint it.quantity ++ (itemSuf ++ rest)))))) := by
    simp [dumpItem, List.append_assoc]
  rw [htext]
  have hm2 : ∀ X : List Char,
      itemMid2 ++ X = ',' :: ('\n' :: (sp 16 ++ (keyColon "quantity" ++ X))) := by
    intro X
    simp [itemMid2, List.append_assoc]
  have hsuf : ∀ X : List Char, itemSuf ++ X = '\n' :: ((sp 12 ++ [rbrace]) ++ X) := by
    intro X
    simp [itemSuf]
  simp only [parseItem]
  rw [expectTok_append]
  dsimp only
  rw [parseJString_quoteStr]
  dsimp only
  rw [expectTok_append]
  dsimp only
  rw [hm2, parseIntTok_intPrint it.price (show isDigitChar ',' = false from by decide)]
  dsimp only
  rw [← hm2, expectTok_append]
  dsimp only
  rw [hsuf, parseIntTok_intPrint it.quantity (show isDigitChar '\n' = false from by decide)]
  dsimp only
  rw [← hsuf, expectTok_append]

theorem dumpItemsTail_length (its : List LineItem) :
    its.length < (dumpItemsTail its).length := by
  induction its with
  | nil => simp [dumpItemsTail, itemsSuf, sp]
  | cons it its ih =>
    simp only [dumpItemsTail, List.length_cons, List.length_append]
    omega

theorem parseItemsTailF_dump :
    ∀ (its : List LineItem) (fuel : Nat) (acc : List LineItem) (rest : List Char),
      its.length < fuel →
      parseItemsTailF fuel acc (dumpItemsTail its ++ rest) = some (acc ++ its, rest) := by
  intro its
  induction its with
  | nil =>
    intro fuel acc rest hf
    cases fuel with
    | zero => omega
    | succ f =>
      show parseItemsTailF (f + 1) acc (itemsSuf ++ rest) = some (acc ++ [], rest)
      simp only [parseItemsTailF]
      have hfail : expectTok [',', '\n'] (itemsSuf ++ rest) = none := by
        show expectTok [',', '\n'] ('\n' :: ((sp 8 ++ [']']) ++ rest)) = none
        simp [expectTok]
      rw [hfail, expectTok_append]
      simp
  | cons it its ih =>
    intro fuel acc rest hf
    cases fuel with
    | zero => omega
    | succ f =>
      show parseItemsTailF (f + 1) acc
          ((',' :: '\n' :: (dumpItem it ++ dumpItemsTail its)) ++ rest) = _
      simp only [parseItemsTailF]
      have hshape : (',' :: '\n' :: (dumpItem it ++ dumpItemsTail its)) ++ rest
          = [',', '\n'] ++ ((dumpItem it ++ dumpItemsTail its) ++ rest) := by
        simp
      rw [hshape, expectTok_append]
      dsimp only
      rw [List.append_assoc, parseItem_dumpItem]
      dsimp only
      rw [ih f (acc ++ [it]) rest (by simpa using Nat.lt_of_succ_lt_succ hf)]
      simp

theorem parseItems_dumpItems (items : List LineItem) (rest : List Char) :
    parseItems (dumpItems items ++ rest) = some (items, rest) := by
  cases items with
  | nil =>
    show parseItems (['[', ']'] ++ rest) = some ([], rest)
    simp only [parseItems]
    rw [expectTok_append]
  | cons it its =>
    show parseItems (('[' :: '\n' :: (dumpItem it ++ dumpItemsTail its)) ++ rest) = _
    simp only [parseItems]
    have hfail : expectTok ['[', ']']
        (('[' :: '\n' :: (dumpItem it ++ dumpItemsTail its)) ++ rest) = none := by
      simp [expectTok]
    rw [hfail]
    have hshape : ('[' :: '\n' :: (dumpItem it ++ dumpItemsTail its)) ++ rest
        = ['[', '\n'] ++ ((dumpItem it ++ dumpItemsTail its) ++ rest) := by
      simp
    rw [hshape, expectTok_append]
    dsimp only
    rw [List.append_assoc, parseItem_dumpItem]
    dsimp only
    rw [parseItemsTailF_dump its _ [it] rest (by
      have h1 := dumpItemsTail_length its
      have h2 : (dumpItemsTail its).length ≤ (dumpItemsTail its ++ rest).length := by
        simp
      omega)]
    simp

theorem parseOrder_dumpOrder (o : Order) (rest : List Char) :
    parseOrder (dumpOrder o ++ rest) = some (o, rest) := by
  have htext : dumpOrder o ++ rest
      = orderPre ++ (quoteStr o.order_id ++ (orderMid1 ++ (quoteStr o.customer ++
          (orderMid2 ++ (dumpItems o.items ++ (orderSuf ++ rest)))))) := by
    simp [dumpOrder, List.append_assoc]
  rw [htext]
  simp only [parseOrder]
  rw [expectTok_append]
  dsimp only
  rw [parseJString_quoteStr]
  dsimp only
  rw [expectTok_append]
  dsimp only
  rw [parseJString_quoteStr]
  dsimp only
  rw [expectTok_append]
  dsimp only
  rw [parseItems_dumpItems]
  dsimp only
  rw [expectTok_append]

theorem dumpOrdersTail_length (os : List Order) :
    os.length < (dumpOrdersTail os).length := by
  induction os with
  | nil => simp [dumpOrdersTail]
  | cons o os ih =>
    simp only [dumpOrdersTail, List.length_cons, List.length_append]
    omega

theorem parseOrdersTailF_dump :
    ∀ (os : List Order) (fuel : Nat) (acc : List Order) (rest : List Char),
      os.length < fuel →
      parseOrdersTailF fuel acc (dumpOrdersTail os ++ rest) = some (acc ++ os, rest) := by
  intro os
  induction os with
  | nil =>
    intro fuel acc rest hf
    cases fuel with
    | zero => omega
    | succ f =>
      show parseOrdersTailF (f + 1) acc (['\n', ']'] ++ rest) = some (acc ++ [], rest)
      simp only [parseOrdersTailF]
      have hfail : expectTok [',', '\n'] (['\n', ']'] ++ rest) = none := by
        simp [expectTok]
      rw [hfail, expectTok_append]
      simp
  | cons o os ih =>
    intro fuel acc rest hf
    cases fuel with
    | zero => omega
    | succ f =>
      show parseOrdersTailF (f + 1) acc
          ((',' :: '\n' :: (dumpOrder o ++ dumpOrdersTail os)) ++ rest) = _
      simp only [parseOrdersTailF]
      have hshape : (',' :: '\n' :: (dumpOrder o ++ dumpOrdersTail os)) ++ rest
          = [',', '\n'] ++ ((dumpOrder o ++ dumpOrdersTail os) ++ rest) := by
        simp
      rw [hshape, expectTok_append]
      dsimp only
      rw [List.append_assoc, parseOrder_dumpOrder]
      dsimp only
      rw [ih f (acc ++ [o]) rest (by simpa using Nat.lt_of_succ_lt_succ hf)]
      simp

theorem parseOrders_dumpOrders (orders : List Order) :
    parseOrders (dumpOrders orders) = some orders := by
  cases orders with
  | nil => rfl
  | cons o os =>
    show parseOrders (String.mk ('[' :: '\n' :: (dumpOrder o ++ dumpOrdersTail os))) = _
    simp only [parseOrders]
    rw [if_neg (by intro h; simp at h)]
    have hshape : '[' :: '\n' :: (dumpOrder o ++ dumpOrdersTail os)
        = ['[', '\n'] ++ (dumpOrder o ++ dumpOrdersTail os) := by
      simp
    rw [hshape, expectTok_append]
    dsimp only
    rw [show dumpOrder o ++ dumpOrdersTail os = dumpOrder o ++ (dumpOrdersTail os ++ []) from by
      simp]
    rw [parseOrder_dumpOrder]
    dsimp only
    rw [parseOrdersTailF_dump os _ [o] [] (by
      have h1 := dumpOrdersTail_length os
      have h2 : (dumpOrdersTail os).length ≤ (dumpOrdersTail os ++ []).length := by simp
      omega)]
    simp

/-- C4: saving any order list to any store and loading that store back yields
exactly the list saved — item order is preserved because the document lists
orders and items positionally, and text (non-ASCII included) survives because
`ensure_ascii=False` writes characters outside the escaped set verbatim, as
the second conjunct shows. -/
theorem C4_save_load_roundtrip (σ : Stores) (filename : String) (orders : List Order) :
    load_data (save_orders σ filename orders) filename = .ok orders ∧
    ∀ c : Char, 31 < c.toNat → c ≠ '"' → c ≠ '\\' → escapeChar c = [c] := by
  constructor
  · show load_data (save_orders σ filename orders) filename = .ok orders
    rw [load_data, save_orders]
    rw [if_pos rfl]
    dsimp only
    rw [parseOrders_dumpOrders]
  · intro c hc h1 h2
    rw [escapeChar, if_neg h1, if_neg h2, if_neg, if_neg, if_neg, if_neg, if_neg,
      if_neg (by omega)]
    all_goals intro he
    all_goals rw [he] at hc
    all_goals exact absurd hc (by decide)

theorem C4_save_load_roundtrip_witness :
    load_data (save_orders (fun _ => FileContent.missing) "orders.json"
        [⟨"A1", "Alice", [⟨"紅茶", 30, 2⟩]⟩]) "orders.json"
      = .ok [⟨"A1", "Alice", [⟨"紅茶", 30, 2⟩]⟩] ∧
    escapeChar '紅' = ['紅'] :=
  ⟨(C4_save_load_roundtrip (fun _ => FileContent.missing) "orders.json"
      [⟨"A1", "Alice", [⟨"紅茶", 30, 2⟩]⟩]).1,
   (C4_save_load_roundtrip (fun _ => FileContent.missing) "orders.json"
      [⟨"A1", "Alice", [⟨"紅茶", 30, 2⟩]⟩]).2 '紅' (by decide) (by decide) (by decide)⟩

/-- C3 as stated is false on the code: a store whose bytes are not valid
UTF-8 has content that fails to parse, yet `load_data` raises
`UnicodeDecodeError` instead of returning the empty list, because its
`except` clause catches only `FileNotFoundError` and `JSONDecodeError`. -/
theorem C3_counterexample :
    load_data (fun _ => FileContent.invalidUtf8) "orders.json"
      = .error PyErr.unicodeDecodeError :=
  rfl

/-- C3 (amended): `load_data` returns the empty list — without raising — when
the store file is missing or its decoded text fails to parse as JSON; errors
other than `FileNotFoundError` and `JSONDecodeError`, such as an unreadable
file or bytes that are not valid UTF-8, propagate to the caller. -/
theorem C3_load_missing_or_malformed (σ : Stores) (filename : String) :
    (σ filename = .missing → load_data σ filename = .ok []) ∧
    (∀ s, σ filename = .text s → parseOrders s = none → load_data σ filename = .ok []) ∧
    (σ filename = .unreadable → load_data σ filename = .error .ioError) ∧
    (σ filename = .invalidUtf8 → load_data σ filename = .error .unicodeDecodeError) := by
  refine ⟨?_, ?_, ?_, ?_⟩
  · intro h
    rw [load_data, h]
  · intro s h hp
    rw [load_data, h]
    dsimp only
    rw [hp]
  · intro h
    rw [load_data, h]
  · intro h
    rw [load_data, h]

theorem C3_load_missing_or_malformed_witness :
    load_data (fun _ => FileContent.missing) "orders.json" = .ok [] ∧
    load_data (fun _ => FileContent.text "not json") "orders.json" = .ok [] :=
  ⟨(C3_load_missing_or_malformed (fun _ => FileContent.missing) "orders.json").1 rfl,
   (C3_load_missing_or_malformed (fun _ => FileContent.text "not json") "orders.json").2.1
     "not json" rfl (by decide)⟩

/-- C6: with an empty pending list, `process_order` reports `noPendingMsg`,
returns no order, leaves the pending list and every store untouched, and
reads and writes no file. -/
theorem C6_empty_pending (σ : Stores) (inputs : List String) :
    process_order σ [] inputs = .out ⟨noPendingMsg, none, [], σ, [], []⟩ :=
  rfl

theorem stripChars_no_space {l : List Char} (h : ∀ c ∈ l, isSpaceChar c = false) :
    stripChars l = l := by
  unfold stripChars
  rw [dropWhile_eq_self (fun c hc => h c (List.mem_of_mem_head? hc)),
    dropWhile_eq_self (fun c hc => h c (List.mem_reverse.mp (List.mem_of_mem_head? hc))),
    List.reverse_reverse]

theorem isSpaceChar_of_digit {c : Char} (h : isDigitChar c = true) : isSpaceChar c = false :=
  isSpaceChar_eq_false (by have := isDigitChar_iff.mp h; omega)

theorem pyStrip_natPrint (k : Nat) :
    pyStrip (String.mk (natPrint k)) = String.mk (natPrint k) := by
  rw [pyStrip_eq_stripChars]
  show String.mk (stripChars (natPrint k)) = _
  rw [stripChars_no_space (fun c hc => isSpaceChar_of_digit (natPrint_digits k c hc))]

theorem pyIsDigit_natPrint (k : Nat) : pyIsDigit (String.mk (natPrint k)) = true := by
  show (!(natPrint k).isEmpty && (natPrint k).all isDigitChar) = true
  rw [Bool.and_eq_true]
  constructor
  · cases hshape : natPrint k with
    | nil => exact absurd hshape (natPrint_ne_nil k)
    | cons c cs => rfl
  · rw [List.all_eq_true]
    exact natPrint_digits k

theorem digitsVal_natPrint (k : Nat) : digitsVal (natPrint k) = k := by
  rw [digitsVal, foldl_digitStep_natPrint]
  simp

theorem selLoop_valid (orders : List Order) (k : Nat) (inputs : List String)
    (h1 : 1 ≤ k) (h2 : k ≤ orders.length) :
    selLoop orders (String.mk (natPrint k) :: inputs) = some (some k) := by
  simp only [selLoop]
  rw [pyStrip_natPrint]
  rw [if_neg (by
    intro h
    exact natPrint_ne_nil k (congrArg String.data h))]
  rw [pyIsDigit_natPrint]
  simp only [Bool.not_true]
  rw [if_neg Bool.false_ne_true]
  show (if digitsVal (natPrint k) < 1 ∨ orders.length < digitsVal (natPrint k)
    then selLoop orders inputs else some (some (digitsVal (natPrint k)))) = some (some k)
  rw [digitsVal_natPrint]
  rw [if_neg (by omega)]

/-- C7: for a nonempty pending list and a valid 1-based selection `k`,
`process_order` removes exactly the k-th order (the remaining orders keep
their relative order, as the take/drop characterization shows), appends that
order to the end of the previously loaded fulfilled store contents, persists
the fulfilled store with exactly those contents, and returns the success
message together with the order. -/
theorem C7_fulfillment (σ : Stores) (orders : List Order) (k : Nat) (prev : List Order)
    (inputs : List String)
    (h1 : 1 ≤ k) (h2 : k ≤ orders.length)
    (hload : load_data σ OUTPUT_FILE = .ok prev) :
    process_order σ orders (String.mk (natPrint k) :: inputs)
      = .out ⟨servedMsg (orders.getD (k - 1) defaultOrder).order_id,
              some (orders.getD (k - 1) defaultOrder),
              orders.eraseIdx (k - 1),
              save_orders σ OUTPUT_FILE (prev ++ [orders.getD (k - 1) defaultOrder]),
              [OUTPUT_FILE], [OUTPUT_FILE]⟩ ∧
    orders.eraseIdx (k - 1) = orders.take (k - 1) ++ orders.drop k ∧
    save_orders σ OUTPUT_FILE (prev ++ [orders.getD (k - 1) defaultOrder]) OUTPUT_FILE
      = .text (dumpOrders (prev ++ [orders.getD (k - 1) defaultOrder])) := by
  refine ⟨?_, ?_, ?_⟩
  · rw [process_order]
    rw [if_neg (by
      intro h
      rw [h] at h2
      simp at h2
      omega)]
    rw [selLoop_valid orders k inputs h1 h2]
    dsimp only
    rw [hload]
  · rw [List.eraseIdx_eq_take_drop_succ]
    have hk : k - 1 + 1 = k := by omega
    rw [hk]
  · rw [save_orders, if_pos rfl]

theorem C7_fulfillment_witness :
    process_order (fun _ => FileContent.missing)
        [⟨"A1", "Alice", [⟨"Tea", 30, 2⟩]⟩] (String.mk (natPrint 1) :: [])
      = .out ⟨servedMsg "A1", some ⟨"A1", "Alice", [⟨"Tea", 30, 2⟩]⟩, [],
          save_orders (fun _ => FileContent.missing) OUTPUT_FILE
            ([] ++ [⟨"A1", "Alice", [⟨"Tea", 30, 2⟩]⟩]),
          [OUTPUT_FILE], [OUTPUT_FILE]⟩ :=
  (C7_fulfillment (fun _ => FileContent.missing) [⟨"A1", "Alice", [⟨"Tea", 30, 2⟩]⟩]
    1 [] [] (by decide) (by decide) rfl).1

/-- C8: during fulfillment selection on a nonempty pending list, blank
(stripped) input cancels with no mutation of the pending list or any store
and nothing read or written, while non-digit or out-of-range input (zero or
beyond the list length) merely consumes that line: the call behaves exactly
as it would on the remaining input, so nothing is mutated and the operation
is not aborted. -/
theorem C8_selection_validation (σ : Stores) (orders : List Order) (s : String)
    (inputs : List String) (hne : orders ≠ []) :
    (pyStrip s = "" →
      process_order σ orders (s :: inputs)
        = .out ⟨cancelMsg, none, orders, σ, [], []⟩) ∧
    (pyStrip s ≠ "" →
      (pyIsDigit (pyStrip s) = false ∨ digitsVal (pyStrip s).data < 1 ∨
        orders.length < digitsVal (pyStrip s).data) →
      process_order σ orders (s :: inputs) = process_order σ orders inputs) := by
  constructor
  · intro hblank
    rw [process_order, if_neg hne]
    simp only [selLoop]
    rw [if_pos hblank]
  · intro hnb hbad
    have hsel : selLoop orders (s :: inputs) = selLoop orders inputs := by
      simp only [selLoop]
      rw [if_neg hnb]
      rcases hbad with hd | hrange
      · rw [hd]
        rfl
      · by_cases hd : pyIsDigit (pyStrip s)
        · rw [hd]
          simp only [Bool.not_true]
          rw [if_neg Bool.false_ne_true, if_pos hrange]
        · rw [Bool.eq_false_iff.mpr hd]
          rfl
    rw [process_order, process_order, if_neg hne, if_neg hne, hsel]

theorem C8_selection_validation_witness :
    process_order (fun _ => FileContent.missing) [⟨"A1", "Alice", []⟩] [" "]
      = .out ⟨cancelMsg, none, [⟨"A1", "Alice", []⟩], fun _ => FileContent.missing, [], []⟩ ∧
    process_order (fun _ => FileContent.missing) [⟨"A1", "Alice", []⟩] ["x"]
      = process_order (fun _ => FileContent.missing) [⟨"A1", "Alice", []⟩] [] ∧
    process_order (fun _ => FileContent.missing) [⟨"A1", "Alice", []⟩] ["0"]
      = process_order (fun _ => FileContent.missing) [⟨"A1", "Alice", []⟩] [] ∧
    process_order (fun _ => FileContent.missing) [⟨"A1", "Alice", []⟩] ["2"]
      = process_order (fun _ => FileContent.missing) [⟨"A1", "Alice", []⟩] [] :=
  ⟨(C8_selection_validation (fun _ => FileContent.missing) [⟨"A1", "Alice", []⟩] " " []
      (by decide)).1 (by decide),
   (C8_selection_validation (fun _ => FileContent.missing) [⟨"A1", "Alice", []⟩] "x" []
      (by decide)).2 (by decide) (Or.inl (by decide)),
   (C8_selection_validation (fun _ => FileContent.missing) [⟨"A1", "Alice", []⟩] "0" []
      (by decide)).2 (by decide) (Or.inr (Or.inl (by decide))),
   (C8_selection_validation (fun _ => FileContent.missing) [⟨"A1", "Alice", []⟩] "2" []
      (by decide)).2 (by decide) (Or.inr (Or.inr (by decide)))⟩

end OrderManager

